import Mathlib

/-!
# Formal model of the `mytrade.py` data pipeline

Shallow embedding of the data pipeline of `mytrade.py`:
ingestion (`load_data`: date parsing with format "%d %b", numeric cleaning
with comma removal and lenient zero-coercion, sort by date), the
metrics block (total P&L, current balance, best/worst day), and the
`st.cache_data(ttl=600)` cache with its manual refresh button.
-/

namespace MyTrade

/-- A calendar date as produced by a year-less strptime-style parse. -/
structure Date where
  year : Nat
  month : Nat
  day : Nat
deriving DecidableEq, Repr

/-- Comparison of dates, chronological (lexicographic on year, month, day);
this is the order `df.sort_values("date")` sorts by. -/
def Date.le (a b : Date) : Bool :=
  a.year < b.year ||
    (a.year == b.year &&
      (a.month < b.month || (a.month == b.month && a.day ≤ b.day)))

/-- Month abbreviations recognised by the "%b" directive. -/
def monthAbbrevs : List String :=
  ["Jan", "Feb", "Mar", "Apr", "May", "Jun",
   "Jul", "Aug", "Sep", "Oct", "Nov", "Dec"]

/-- ASCII lower-casing of one character. -/
def charToLower (c : Char) : Char :=
  if 'A' ≤ c && c ≤ 'Z' then Char.ofNat (c.toNat + 32) else c

/-- Splits a character sequence into its whitespace-separated words. -/
def splitWordsAux : List Char → List Char → List (List Char)
  | [], acc => if acc.isEmpty then [] else [acc.reverse]
  | c :: rest, acc =>
    if c.isWhitespace then
      if acc.isEmpty then splitWordsAux rest []
      else acc.reverse :: splitWordsAux rest []
    else splitWordsAux rest (c :: acc)

/-- The whitespace-separated words of a character sequence. -/
def splitWords (cs : List Char) : List (List Char) :=
  splitWordsAux cs []

/-- Digit run to a natural number. -/
def digitsToNat (cs : List Char) : Nat :=
  cs.foldl (fun a c => a * 10 + (c.toNat - 48)) 0

/-- Looks up a month abbreviation case-insensitively ("%b" matching),
returning the month number 1..12. -/
def monthFromAbbrev (cs : List Char) : Option Nat :=
  match monthAbbrevs.findIdx?
      (fun m => m.data.map charToLower == cs.map charToLower) with
  | some i => some (i + 1)
  | none => none

/-- Number of days in a month, with the Gregorian leap-year rule used by
Python datetime validation. -/
def daysInMonth (year month : Nat) : Nat :=
  if month == 2 then
    if year % 4 == 0 && (year % 100 != 0 || year % 400 == 0) then 29 else 28
  else if month == 4 || month == 6 || month == 9 || month == 11 then 30
  else 31

/-- The default year strptime substitutes when the format has no year
directive, as in `pd.to_datetime(df["date"], format="%d %b")`. -/
def defaultYear : Nat := 1900

/-- Models `pd.to_datetime(s, format="%d %b", dayfirst=True)` on one cell:
a 1-2 digit day, whitespace, a month abbreviation; the whole string must be
consumed; the day must be valid for the month in the default year 1900.
Returns `none` where pandas raises (the `FormatError` of the load). -/
def parseDate (s : String) : Option Date :=
  match splitWords s.data with
  | [dayCs, monCs] =>
    match monthFromAbbrev monCs with
    | some m =>
      if dayCs.length ≤ 2 && dayCs.all Char.isDigit then
        if 1 ≤ digitsToNat dayCs && digitsToNat dayCs ≤ daysInMonth defaultYear m then
          some ⟨defaultYear, m, digitsToNat dayCs⟩
        else none
      else none
    | none => none
  | _ => none

/-- Removes every comma, modelling `.str.replace(",", "")`. -/
def stripCommas (s : String) : String :=
  ⟨s.data.filter (fun c => c ≠ ',')⟩

/-- Leading and trailing whitespace removed. -/
def trimChars (cs : List Char) : List Char :=
  ((cs.dropWhile Char.isWhitespace).reverse.dropWhile Char.isWhitespace).reverse

/-- Models the decimal grammar of `pd.to_numeric` on one cleaned string:
optional sign, integer digits, optional fractional part; the whole string
must be consumed and at least one digit present. `none` models the NaN
that `errors="coerce"` produces on a parse failure. -/
def parseDecimal (s : String) : Option Rat :=
  let cs := trimChars s.data
  let signed : Int × List Char :=
    match cs with
    | '-' :: rest => (-1, rest)
    | '+' :: rest => (1, rest)
    | _ => (1, cs)
  let sign := signed.1
  let body := signed.2
  let intPart := body.takeWhile Char.isDigit
  let rest := body.dropWhile Char.isDigit
  match rest with
  | [] =>
    if intPart.isEmpty then none
    else some (mkRat (sign * digitsToNat intPart) 1)
  | '.' :: frac =>
    if frac.all Char.isDigit && !(intPart.isEmpty && frac.isEmpty) then
      some (mkRat (sign * digitsToNat (intPart ++ frac)) (10 ^ frac.length))
    else none
  | _ => none

/-- Models one numeric cell of
`pd.to_numeric(col.astype(str).str.replace(",", ""), errors="coerce").fillna(0)`:
commas are removed, then the cell is parsed as a decimal number, and any
parse failure resolves to exactly 0. -/
def parseNumeric (s : String) : Rat :=
  (parseDecimal (stripCommas s)).getD 0

/-- One raw CSV row: the five relevant cells, as strings. -/
structure RawRow where
  date : String
  money_in : String
  gain_loss : String
  money_out : String
  overall_money : String
deriving DecidableEq, Repr

/-- One typed record of the loaded DataFrame. -/
structure Record where
  date : Date
  money_in : Rat
  gain_loss : Rat
  money_out : Rat
  overall_money : Rat
deriving DecidableEq, Repr

/-- Parses one raw row: the date cell must parse (else the whole load
fails); the four numeric cells are coerced leniently and never fail. -/
def parseRow (r : RawRow) : Option Record :=
  (parseDate r.date).map fun d =>
    { date := d
      money_in := parseNumeric r.money_in
      gain_loss := parseNumeric r.gain_loss
      money_out := parseNumeric r.money_out
      overall_money := parseNumeric r.overall_money }

/-- Parses every row; a single failure makes the whole result `none`
(`pd.to_datetime` with the default `errors="raise"`). -/
def parseRows : List RawRow → Option (List Record)
  | [] => some []
  | r :: rs =>
    match parseRow r, parseRows rs with
    | some rec, some recs => some (rec :: recs)
    | _, _ => none

/-- The order records are sorted by: chronological on the date field. -/
def recLe (a b : Record) : Prop := Date.le a.date b.date = true

instance : DecidableRel recLe := fun a b => by
  unfold recLe; infer_instance

/-- Models `df.sort_values("date").reset_index(drop=True)`: the records
sorted by date ascending. The source uses the default sort kind, whose
ordering among records with equal dates is implementation-defined; this
model realises one such order (insertion sort), and only facts independent
of the tie order (sortedness, permutation, membership) are proved of it. -/
def sortByDate (l : List Record) : List Record :=
  List.insertionSort recLe l

/-- Models `load_data` (minus the network fetch): parse every row, fail
wholesale if any date cell is malformed, and sort the result by date.
The numeric cleaning is per-row and order-independent, so folding it into
row parsing before the sort yields the same table as the source's
parse-dates / sort / clean-numbers order. -/
def load_data (rows : List RawRow) : Option (List Record) :=
  (parseRows rows).map sortByDate

/-- The four summary metrics of the dashboard's metrics block. -/
structure SummaryMetrics where
  total_pnl : Rat
  current_balance : Rat
  best_day : Record
  worst_day : Record
deriving DecidableEq, Repr

/-- Models `Series.idxmax` composed with `df.loc`: the record holding the
first occurrence of the maximal value of `f`, scanning `r :: rs` left to
right. -/
def firstArgmax (f : Record → Rat) : Record → List Record → Record
  | r, [] => r
  | r, x :: xs =>
    if f r < f (firstArgmax f x xs) then firstArgmax f x xs else r

/-- Models `Series.idxmin` composed with `df.loc`: the record holding the
first occurrence of the minimal value of `f`. -/
def firstArgmin (f : Record → Rat) : Record → List Record → Record
  | r, [] => r
  | r, x :: xs =>
    if f (firstArgmin f x xs) < f r then firstArgmin f x xs else r

/-- Rational addition written out on numerators and denominators; equal to
`Rat.add` (see `ratAdd_eq_add`) but stated so that concrete dataset
computations evaluate. -/
def ratAdd (a b : Rat) : Rat :=
  mkRat (a.num * (b.den : Int) + b.num * (a.den : Int)) (a.den * b.den)

/-- The sum of a list of rationals, via `ratAdd`; models `Series.sum`. -/
def ratSum (l : List Rat) : Rat :=
  l.foldr ratAdd 0

/-- Models the metrics block (lines 80-83):
`total_pnl = df["gain/loss"].sum()`, `current = df["overall money"].iloc[-1]`,
`best = df.loc[df["gain/loss"].idxmax()]`, `worst = df.loc[df["gain/loss"].idxmin()]`.
On an empty table `iloc[-1]` and `idxmax`/`idxmin` raise, so the result is
`none`: no metrics are produced. -/
def summarize : List Record → Option SummaryMetrics
  | [] => none
  | r :: rs =>
    some
      { total_pnl := ratSum ((r :: rs).map Record.gain_loss)
        current_balance := ((r :: rs).getLast (List.cons_ne_nil r rs)).overall_money
        best_day := firstArgmax Record.gain_loss r rs
        worst_day := firstArgmin Record.gain_loss r rs }

/-- The state of the `st.cache_data` memo for `load_data`: the cached
dataset together with the time it was fetched, or nothing. -/
structure CacheState where
  entry : Option (List Record × Nat)
deriving DecidableEq, Repr

/-- The cache time-to-live: `ttl=600` seconds. -/
def cacheTTL : Nat := 600

/-- Models the refresh button's `st.cache_data.clear()`: the memo is
dropped instantly. -/
def refreshCache (_st : CacheState) : CacheState := ⟨none⟩

/-- Models one call to the `st.cache_data(ttl=600)`-wrapped `load_data` at
time `now` (seconds): a cached entry younger than the TTL is returned with
no fetch; otherwise the source is fetched (yielding `rows`), parsed, and a
successful result is memoized. Returns the result, the new cache state,
and whether a fetch was performed. -/
def cachedLoad (st : CacheState) (now : Nat) (rows : List RawRow) :
    Option (List Record) × CacheState × Bool :=
  match st.entry with
  | some (ds, t) =>
    if now < t + cacheTTL then (some ds, st, false)
    else
      match load_data rows with
      | some ds2 => (some ds2, ⟨some (ds2, now)⟩, true)
      | none => (none, ⟨none⟩, true)
  | none =>
    match load_data rows with
    | some ds2 => (some ds2, ⟨some (ds2, now)⟩, true)
    | none => (none, ⟨none⟩, true)

/-! ## Order properties of the date comparison -/

theorem Date.le_refl (a : Date) : Date.le a a = true := by
  simp [Date.le]

theorem Date.le_total (a b : Date) : Date.le a b = true ∨ Date.le b a = true := by
  simp only [Date.le, Bool.or_eq_true, Bool.and_eq_true, decide_eq_true_eq, beq_iff_eq]
  omega

theorem Date.le_trans {a b c : Date} (h1 : Date.le a b = true)
    (h2 : Date.le b c = true) : Date.le a c = true := by
  simp only [Date.le, Bool.or_eq_true, Bool.and_eq_true, decide_eq_true_eq,
    beq_iff_eq] at h1 h2 ⊢
  omega

instance : IsTotal Record recLe := ⟨fun a b => Date.le_total a.date b.date⟩

instance : IsTrans Record recLe := ⟨fun _ _ _ => Date.le_trans⟩

/-! ## Order and membership facts about the sort -/

theorem mem_sortByDate {r : Record} {l : List Record} :
    r ∈ sortByDate l ↔ r ∈ l :=
  (List.perm_insertionSort recLe l).mem_iff

theorem sortByDate_sorted (l : List Record) : List.Sorted recLe (sortByDate l) :=
  List.sorted_insertionSort recLe l

theorem sortByDate_perm (l : List Record) : (sortByDate l).Perm l :=
  List.perm_insertionSort recLe l

/-! ## The explicit rational sum agrees with Mathlib's -/

theorem ratAdd_eq_add (a b : Rat) : ratAdd a b = a + b := by
  rw [ratAdd, Rat.mkRat_eq_divInt]
  push_cast
  conv_rhs => rw [← Rat.num_divInt_den a, ← Rat.num_divInt_den b]
  rw [Rat.divInt_add_divInt _ _ (by exact_mod_cast a.den_nz) (by exact_mod_cast b.den_nz)]

theorem ratSum_eq_sum (l : List Rat) : ratSum l = l.sum := by
  induction l with
  | nil => rfl
  | cons x xs ih =>
    show ratAdd x (ratSum xs) = (x :: xs).sum
    rw [ratAdd_eq_add, ih, List.sum_cons]

/-! ## Claim theorems: numeric coercion -/

/-- C5: parsing a numeric string with thousands-separator commas yields the
same value as parsing the comma-free string, because the parser strips all
commas before parsing. -/
theorem parseNumeric_comma_invariant (s : String) :
    parseNumeric s = parseNumeric (stripCommas s) := by
  have h : stripCommas (stripCommas s) = stripCommas s := by
    simp [stripCommas, List.filter_filter]
  rw [parseNumeric, parseNumeric, h]

/-- C4: any numeric cell that does not parse as a decimal number after comma
removal resolves to exactly 0 (never an error), illustrated on `""`, `"N/A"`
and `"-"`; consequently row parsing can only fail on the date cell, so every
loaded record has all four numeric fields populated. -/
theorem parseNumeric_lenient_zero :
    (∀ s : String, parseDecimal (stripCommas s) = none → parseNumeric s = 0)
    ∧ parseNumeric "" = 0 ∧ parseNumeric "N/A" = 0 ∧ parseNumeric "-" = 0
    ∧ (∀ row : RawRow, parseRow row = none → parseDate row.date = none) := by
  refine ⟨fun s h => ?_, by decide, by decide, by decide, fun row h => ?_⟩
  · rw [parseNumeric, h]; rfl
  · rw [parseRow, Option.map_eq_none'] at h
    exact h

/-- Closed-form witness for `parseNumeric_lenient_zero` at the concrete
unparseable cell "N/A". -/
theorem parseNumeric_lenient_zero_witness : parseNumeric "N/A" = 0 :=
  parseNumeric_lenient_zero.1 "N/A" (by decide)

/-! ## Claim theorems: aggregation -/

/-- C2: the metrics block produces no metrics on an empty dataset (it
fails), and always produces metrics on a non-empty dataset. -/
theorem summarize_empty_fails :
    summarize [] = none ∧ ∀ (r : Record) (rs : List Record),
      (summarize (r :: rs)).isSome = true :=
  ⟨rfl, fun _ _ => rfl⟩

/-- C10: on a one-record dataset the best and worst day are both that
record, and its gain/loss is the total P&L. -/
theorem summarize_singleton (r : Record) :
    ∃ m, summarize [r] = some m ∧ m.best_day = r ∧ m.worst_day = r ∧
      m.best_day = m.worst_day ∧ m.total_pnl = r.gain_loss := by
  refine ⟨_, rfl, rfl, rfl, rfl, ?_⟩
  show ratSum [r.gain_loss] = r.gain_loss
  rw [ratSum_eq_sum]
  simp

/-! ## Row-parsing helper lemmas -/

theorem parseRow_none_iff (r : RawRow) :
    parseRow r = none ↔ parseDate r.date = none := by
  rw [parseRow, Option.map_eq_none']

theorem parseRows_none_iff (rows : List RawRow) :
    parseRows rows = none ↔ ∃ r ∈ rows, parseRow r = none := by
  induction rows with
  | nil => simp [parseRows]
  | cons a as ih =>
    cases ha : parseRow a with
    | none =>
      simp only [parseRows, ha]
      exact iff_of_true trivial ⟨a, List.mem_cons_self a as, ha⟩
    | some rec =>
      cases has : parseRows as with
      | none =>
        simp only [parseRows, ha, has]
        obtain ⟨x, hx, hxn⟩ := ih.mp has
        exact iff_of_true trivial ⟨x, List.mem_cons_of_mem a hx, hxn⟩
      | some recs =>
        simp only [parseRows, ha, has]
        constructor
        · intro hcon; cases hcon
        · rintro ⟨x, hx, hxn⟩
          rcases List.mem_cons.mp hx with rfl | hx2
          · rw [ha] at hxn; cases hxn
          · have := ih.mpr ⟨x, hx2, hxn⟩
            rw [has] at this; cases this

theorem parseRows_mem {rows : List RawRow} {parsed : List Record}
    (h : parseRows rows = some parsed) :
    ∀ r ∈ parsed, ∃ row ∈ rows, parseRow row = some r := by
  induction rows generalizing parsed with
  | nil =>
    rw [parseRows] at h
    injection h with h'
    subst h'
    intro r hr; cases hr
  | cons a as ih =>
    rw [parseRows] at h
    cases ha : parseRow a <;> rw [ha] at h
    · cases h
    · cases has : parseRows as <;> rw [has] at h
      · cases h
      · injection h with h'
        subst h'
        intro r hr
        rcases List.mem_cons.mp hr with rfl | hmem
        · exact ⟨a, List.mem_cons_self a as, ha⟩
        · obtain ⟨row, hrow, hparse⟩ := ih has r hmem
          exact ⟨row, List.mem_cons_of_mem a hrow, hparse⟩

theorem parseDate_year_eq (s : String) (d : Date)
    (h : parseDate s = some d) : d.year = 1900 := by
  rw [parseDate] at h
  cases hw : splitWords s.data with
  | nil => rw [hw] at h; cases h
  | cons w1 ws =>
    cases ws with
    | nil => rw [hw] at h; cases h
    | cons w2 ws2 =>
      cases ws2 with
      | cons w3 ws3 => rw [hw] at h; cases h
      | nil =>
        rw [hw] at h
        dsimp only at h
        cases hm : monthFromAbbrev w2 with
        | none => rw [hm] at h; cases h
        | some m =>
          rw [hm] at h
          dsimp only at h
          by_cases h1 : (w1.length ≤ 2 && w1.all Char.isDigit) = true
          · rw [if_pos h1] at h
            by_cases h2 : (1 ≤ digitsToNat w1 &&
                digitsToNat w1 ≤ daysInMonth defaultYear m) = true
            · rw [if_pos h2] at h
              injection h with h3
              subst h3
              rfl
            · rw [if_neg h2] at h; cases h
          · rw [if_neg h1] at h; cases h

/-! ## Sorted lists end in their chronological maximum -/

theorem sorted_le_getLast :
    ∀ (l : List Record) (z : Record), List.Sorted recLe l →
      l.getLast? = some z → ∀ x ∈ l, Date.le x.date z.date = true := by
  intro l
  induction l with
  | nil => intro z _ hz; cases hz
  | cons a t ih =>
    intro z hs hz x hx
    cases t with
    | nil =>
      rw [List.getLast?_singleton] at hz
      injection hz with h'
      subst h'
      rw [List.mem_singleton] at hx
      subst hx
      exact Date.le_refl _
    | cons b t2 =>
      rw [List.getLast?_cons_cons] at hz
      have hz_mem : z ∈ b :: t2 := List.mem_of_getLast?_eq_some hz
      rcases List.mem_cons.mp hx with rfl | hx2
      · exact (List.pairwise_cons.mp hs).1 z hz_mem
      · exact ih z (List.Pairwise.of_cons hs) hz x hx2

/-! ## Claim theorems: atomicity and year default -/

/-- Every successfully loaded dataset is non-decreasing by date (true for
any correct sort of the parsed rows, whatever its tie order). -/
theorem load_data_sorted (rows : List RawRow) (ds : List Record)
    (h : load_data rows = some ds) : List.Sorted recLe ds := by
  rw [load_data] at h
  cases hp : parseRows rows with
  | none => rw [hp] at h; cases h
  | some parsed =>
    rw [hp, Option.map_some'] at h
    injection h with h2
    subst h2
    exact sortByDate_sorted parsed

/-- C3: the load fails exactly when some row's date cell is malformed (one
bad date is fatal to the whole load, and there is no other failure mode);
when every date parses, a complete dataset is produced: the sorted
permutation of the row-wise parses. -/
theorem load_data_all_or_nothing (rows : List RawRow) :
    (load_data rows = none ↔ ∃ row ∈ rows, parseDate row.date = none)
    ∧ ((∀ row ∈ rows, (parseDate row.date).isSome = true) →
        ∃ parsed, parseRows rows = some parsed ∧
          load_data rows = some (sortByDate parsed) ∧
          List.Sorted recLe (sortByDate parsed) ∧
          (sortByDate parsed).Perm parsed) := by
  constructor
  · rw [load_data, Option.map_eq_none', parseRows_none_iff]
    constructor
    · rintro ⟨r, hr, hrn⟩
      exact ⟨r, hr, (parseRow_none_iff r).mp hrn⟩
    · rintro ⟨r, hr, hrn⟩
      exact ⟨r, hr, (parseRow_none_iff r).mpr hrn⟩
  · intro hall
    cases hp : parseRows rows with
    | none =>
      obtain ⟨r, hr, hrn⟩ := (parseRows_none_iff rows).mp hp
      have := hall r hr
      rw [(parseRow_none_iff r).mp hrn] at this
      cases this
    | some parsed =>
      exact ⟨parsed, rfl, by rw [load_data, hp, Option.map_some'],
        sortByDate_sorted parsed, sortByDate_perm parsed⟩

/-- Closed-form witness for `load_data_all_or_nothing`: one malformed date
cell ("31 Nov" does not exist) makes the whole load fail. -/
theorem load_data_all_or_nothing_witness :
    load_data [⟨"6 Nov", "0", "500", "0", "1300"⟩,
               ⟨"31 Nov", "0", "1", "0", "1301"⟩] = none :=
  (load_data_all_or_nothing
    [⟨"6 Nov", "0", "500", "0", "1300"⟩,
     ⟨"31 Nov", "0", "1", "0", "1301"⟩]).1.mpr
    ⟨⟨"31 Nov", "0", "1", "0", "1301"⟩, by decide, by decide⟩

/-- C9: the year-less "%d %b" parse resolves every date to the fixed
default year 1900, so all records of every loaded dataset share that one
year component. -/
theorem load_data_year_1900 :
    (∀ s d, parseDate s = some d → d.year = 1900)
    ∧ (∀ rows ds, load_data rows = some ds → ∀ r ∈ ds, r.date.year = 1900) := by
  refine ⟨parseDate_year_eq, fun rows ds hload r hr => ?_⟩
  rw [load_data] at hload
  cases hp : parseRows rows with
  | none => rw [hp] at hload; cases hload
  | some parsed =>
    rw [hp, Option.map_some'] at hload
    injection hload with h'
    subst h'
    have hr' : r ∈ parsed := mem_sortByDate.mp hr
    obtain ⟨row, _, hrow⟩ := parseRows_mem hp r hr'
    rw [parseRow, Option.map_eq_some'] at hrow
    obtain ⟨d, hd, hfd⟩ := hrow
    rw [← hfd]
    exact parseDate_year_eq row.date d hd

/-- Closed-form witness for `load_data_year_1900` at the cell "11 Nov". -/
theorem load_data_year_1900_witness : (⟨1900, 11, 11⟩ : Date).year = 1900 :=
  load_data_year_1900.1 "11 Nov" ⟨1900, 11, 11⟩ (by decide)

/-! ## First-occurrence argmax/argmin lemmas -/

theorem firstArgmax_mem (f : Record → Rat) (r : Record) (rs : List Record) :
    firstArgmax f r rs ∈ r :: rs := by
  induction rs generalizing r with
  | nil => simp [firstArgmax]
  | cons x xs ih =>
    simp only [firstArgmax]
    by_cases h : f r < f (firstArgmax f x xs)
    · rw [if_pos h]
      exact List.mem_cons_of_mem r (ih x)
    · rw [if_neg h]
      exact List.mem_cons_self r (x :: xs)

theorem le_firstArgmax (f : Record → Rat) (r : Record) (rs : List Record) :
    ∀ y ∈ r :: rs, f y ≤ f (firstArgmax f r rs) := by
  induction rs generalizing r with
  | nil =>
    intro y hy
    rw [List.mem_singleton] at hy
    subst hy
    exact le_refl _
  | cons x xs ih =>
    intro y hy
    simp only [firstArgmax]
    by_cases h : f r < f (firstArgmax f x xs)
    · rw [if_pos h]
      rcases List.mem_cons.mp hy with rfl | hy2
      · exact le_of_lt h
      · exact ih x y hy2
    · rw [if_neg h]
      rcases List.mem_cons.mp hy with rfl | hy2
      · exact le_refl _
      · exact le_trans (ih x y hy2) (not_lt.mp h)

theorem firstArgmax_first (f : Record → Rat) (r : Record) (rs : List Record) :
    ∃ l₁ l₂, r :: rs = l₁ ++ firstArgmax f r rs :: l₂ ∧
      ∀ y ∈ l₁, f y < f (firstArgmax f r rs) := by
  induction rs generalizing r with
  | nil => exact ⟨[], [], rfl, by simp⟩
  | cons x xs ih =>
    by_cases h : f r < f (firstArgmax f x xs)
    · obtain ⟨l₁, l₂, heq, hlt⟩ := ih x
      refine ⟨r :: l₁, l₂, ?_, ?_⟩
      · simp only [firstArgmax, if_pos h, List.cons_append]
        rw [← heq]
      · intro y hy
        simp only [firstArgmax, if_pos h]
        rcases List.mem_cons.mp hy with rfl | hy2
        · exact h
        · exact hlt y hy2
    · refine ⟨[], x :: xs, ?_, by simp⟩
      simp only [firstArgmax, if_neg h, List.nil_append]

theorem firstArgmin_mem (f : Record → Rat) (r : Record) (rs : List Record) :
    firstArgmin f r rs ∈ r :: rs := by
  induction rs generalizing r with
  | nil => simp [firstArgmin]
  | cons x xs ih =>
    simp only [firstArgmin]
    by_cases h : f (firstArgmin f x xs) < f r
    · rw [if_pos h]
      exact List.mem_cons_of_mem r (ih x)
    · rw [if_neg h]
      exact List.mem_cons_self r (x :: xs)

theorem firstArgmin_le (f : Record → Rat) (r : Record) (rs : List Record) :
    ∀ y ∈ r :: rs, f (firstArgmin f r rs) ≤ f y := by
  induction rs generalizing r with
  | nil =>
    intro y hy
    rw [List.mem_singleton] at hy
    subst hy
    exact le_refl _
  | cons x xs ih =>
    intro y hy
    simp only [firstArgmin]
    by_cases h : f (firstArgmin f x xs) < f r
    · rw [if_pos h]
      rcases List.mem_cons.mp hy with rfl | hy2
      · exact le_of_lt h
      · exact ih x y hy2
    · rw [if_neg h]
      rcases List.mem_cons.mp hy with rfl | hy2
      · exact le_refl _
      · exact le_trans (not_lt.mp h) (ih x y hy2)

theorem firstArgmin_first (f : Record → Rat) (r : Record) (rs : List Record) :
    ∃ l₁ l₂, r :: rs = l₁ ++ firstArgmin f r rs :: l₂ ∧
      ∀ y ∈ l₁, f (firstArgmin f r rs) < f y := by
  induction rs generalizing r with
  | nil => exact ⟨[], [], rfl, by simp⟩
  | cons x xs ih =>
    by_cases h : f (firstArgmin f x xs) < f r
    · obtain ⟨l₁, l₂, heq, hlt⟩ := ih x
      refine ⟨r :: l₁, l₂, ?_, ?_⟩
      · simp only [firstArgmin, if_pos h, List.cons_append]
        rw [← heq]
      · intro y hy
        simp only [firstArgmin, if_pos h]
        rcases List.mem_cons.mp hy with rfl | hy2
        · exact h
        · exact hlt y hy2
    · refine ⟨[], x :: xs, ?_, by simp⟩
      simp only [firstArgmin, if_neg h, List.nil_append]

/-! ## Claim theorems: the metrics block -/

/-- C6: on every non-empty dataset, the best day attains the maximum
gain/loss, the worst day attains the minimum, and on a tie each is the
first record in sequence order attaining the extreme (everything strictly
before it in the dataset is strictly on the other side of the value). -/
theorem summarize_best_worst (ds : List Record) (m : SummaryMetrics)
    (h : summarize ds = some m) :
    (m.best_day ∈ ds ∧ (∀ y ∈ ds, y.gain_loss ≤ m.best_day.gain_loss) ∧
      ∃ l₁ l₂, ds = l₁ ++ m.best_day :: l₂ ∧
        ∀ y ∈ l₁, y.gain_loss < m.best_day.gain_loss)
    ∧ (m.worst_day ∈ ds ∧ (∀ y ∈ ds, m.worst_day.gain_loss ≤ y.gain_loss) ∧
      ∃ l₁ l₂, ds = l₁ ++ m.worst_day :: l₂ ∧
        ∀ y ∈ l₁, m.worst_day.gain_loss < y.gain_loss) := by
  cases ds with
  | nil => cases h
  | cons r rs =>
    rw [summarize] at h
    injection h with h2
    subst h2
    exact ⟨⟨firstArgmax_mem Record.gain_loss r rs,
            le_firstArgmax Record.gain_loss r rs,
            firstArgmax_first Record.gain_loss r rs⟩,
           ⟨firstArgmin_mem Record.gain_loss r rs,
            firstArgmin_le Record.gain_loss r rs,
            firstArgmin_first Record.gain_loss r rs⟩⟩

/-- Closed-form witness for `summarize_best_worst` on a dataset with a
tied maximum: the chosen best day is a member of the dataset (and, by the
theorem's tie-break clause, the first of the tied pair). -/
theorem summarize_best_worst_witness :
    (⟨⟨1900, 11, 5⟩, 0, 7, 0, 100⟩ : Record) ∈
      [⟨⟨1900, 11, 5⟩, 0, 7, 0, 100⟩, ⟨⟨1900, 11, 6⟩, 0, 7, 0, 200⟩,
       (⟨⟨1900, 11, 7⟩, 0, 2, 0, 202⟩ : Record)] :=
  (summarize_best_worst
    [⟨⟨1900, 11, 5⟩, 0, 7, 0, 100⟩, ⟨⟨1900, 11, 6⟩, 0, 7, 0, 200⟩,
     ⟨⟨1900, 11, 7⟩, 0, 2, 0, 202⟩]
    ⟨16, 202, ⟨⟨1900, 11, 5⟩, 0, 7, 0, 100⟩, ⟨⟨1900, 11, 7⟩, 0, 2, 0, 202⟩⟩
    (by decide)).1.1

/-- C7: for a loaded dataset, the summary's total P&L is the arithmetic sum
of gain/loss over all records, and the current balance is the
overall-money of the dataset's last record, which is chronologically last
(no record has a later date). -/
theorem summarize_total_current (rows : List RawRow) (ds : List Record)
    (m : SummaryMetrics) (lastRec : Record)
    (hload : load_data rows = some ds)
    (hsum : summarize ds = some m)
    (hlast : ds.getLast? = some lastRec) :
    m.total_pnl = (ds.map Record.gain_loss).sum
    ∧ m.current_balance = lastRec.overall_money
    ∧ ∀ x ∈ ds, Date.le x.date lastRec.date = true := by
  have hsorted : List.Sorted recLe ds := load_data_sorted rows ds hload
  cases ds with
  | nil => cases hsum
  | cons r rs =>
    rw [summarize] at hsum
    injection hsum with h2
    subst h2
    refine ⟨ratSum_eq_sum _, ?_, sorted_le_getLast (r :: rs) lastRec hsorted hlast⟩
    rw [List.getLast?_eq_getLast (r :: rs) (List.cons_ne_nil r rs)] at hlast
    injection hlast with h3
    rw [← h3]

/-- Closed-form witness for `summarize_total_current` on the loaded
two-row dataset of the specification's aggregation example. -/
theorem summarize_total_current_witness :
    (⟨300, 1300, ⟨⟨1900, 11, 6⟩, 0, 500, 0, 1300⟩,
      (⟨⟨1900, 11, 5⟩, 0, -200, 0, 800⟩ : Record)⟩ : SummaryMetrics).current_balance
      = (⟨⟨1900, 11, 6⟩, 0, 500, 0, 1300⟩ : Record).overall_money :=
  (summarize_total_current
    [⟨"6 Nov", "0", "500", "0", "1300"⟩, ⟨"5 Nov", "0", "-200", "0", "800"⟩]
    [⟨⟨1900, 11, 5⟩, 0, -200, 0, 800⟩, ⟨⟨1900, 11, 6⟩, 0, 500, 0, 1300⟩]
    ⟨300, 1300, ⟨⟨1900, 11, 6⟩, 0, 500, 0, 1300⟩, ⟨⟨1900, 11, 5⟩, 0, -200, 0, 800⟩⟩
    ⟨⟨1900, 11, 6⟩, 0, 500, 0, 1300⟩
    (by decide) (by decide) (by decide)).2.1

/-! ## Claim theorems: cache behaviour -/

/-- C8: after the manual refresh clears the memo, the very next load
always fetches, whatever the previous cache state and however much TTL
remained; and a first load at time `t` followed by a second load strictly
within the TTL window returns the identical cached dataset with no second
fetch (the second call's result does not even depend on what the source
would now serve). -/
theorem cache_refresh_ttl :
    (∀ (st : CacheState) (now : Nat) (rows : List RawRow),
      (cachedLoad (refreshCache st) now rows).2.2 = true)
    ∧ (∀ (rows rows2 : List RawRow) (ds : List Record) (t t2 : Nat),
        load_data rows = some ds → t ≤ t2 → t2 < t + cacheTTL →
        cachedLoad ⟨none⟩ t rows = (some ds, ⟨some (ds, t)⟩, true) ∧
        cachedLoad ⟨some (ds, t)⟩ t2 rows2 = (some ds, ⟨some (ds, t)⟩, false)) := by
  constructor
  · intro st now rows
    cases h : load_data rows <;>
      simp [cachedLoad, refreshCache, h]
  · intro rows rows2 ds t t2 hload _hle hlt
    constructor
    · simp [cachedLoad, hload]
    · simp [cachedLoad, hlt]

/-- Closed-form witness for `cache_refresh_ttl`: a fetch at time 0 and a
second load at time 599 (1 second before expiry) with a different source
table still returns the time-0 dataset without fetching. -/
theorem cache_refresh_ttl_witness :
    cachedLoad ⟨none⟩ 0 [⟨"5 Nov", "0", "-200", "0", "800"⟩]
      = (some [⟨⟨1900, 11, 5⟩, 0, -200, 0, 800⟩],
         ⟨some ([⟨⟨1900, 11, 5⟩, 0, -200, 0, 800⟩], 0)⟩, true)
    ∧ cachedLoad ⟨some ([⟨⟨1900, 11, 5⟩, 0, -200, 0, 800⟩], 0)⟩ 599
        [⟨"6 Nov", "0", "999", "0", "999"⟩]
      = (some [⟨⟨1900, 11, 5⟩, 0, -200, 0, 800⟩],
         ⟨some ([⟨⟨1900, 11, 5⟩, 0, -200, 0, 800⟩], 0)⟩, false) :=
  cache_refresh_ttl.2
    [⟨"5 Nov", "0", "-200", "0", "800"⟩] [⟨"6 Nov", "0", "999", "0", "999"⟩]
    [⟨⟨1900, 11, 5⟩, 0, -200, 0, 800⟩] 0 599
    (by decide) (by decide) (by decide)

end MyTrade
